import Mathlib

/-! smart-compass: navigation core

A shallow embedding of the three firmware components

* `sc_logic.c`   (NavigationTask: `calculate_angle`, `calculate_distance`,
  `calculate_next_wp`, `logic_task`),
* `sc_compass.c` (HeadingTask: `compass_calibrate`, `calculate_bearing`,
  `rad_to_deg`, `update_shared_data`),
* `sc_display.c` (UI refresh: `ui_refresh_task`),

followed by the properties of the specification that were checked against them.

Conventions of the embedding.

* C `float`/`double` values are elements of an ordered field `α` with a floor
  function; the functions of `<math.h>` the code calls are the fields of a
  record `libm α` that every embedded function receives.  The definitions are
  executable over `ℚ`; the theorems that depend on numeric values read them
  over `ℝ` with the functions of real analysis.
* In `calculate_distance`, whose result is an integer number of metres, every
  rounding of the C arithmetic is written out: `to_float` after an operation
  in `float`, `to_double` after an operation or a library call in `double`
  (round to nearest, ties to even, 24 and 53 significant bits; the exponent
  range is not bounded).  In `calculate_angle` and in the heading task the
  arithmetic is exact, without rounding.
* Machine integers are `Int`/`Nat` with the conversions `to_int16`,
  `to_uint16`, `to_uint32` written where the C code converts.
* The two global records and the storage behind `path.nodes` are passed
  explicitly; every embedded task step also returns the list of `event`s
  (lock operations, reads of `path.nodes[i]`, writes to the shared records)
  it performs, in program order.  A read of `path.nodes[i]` with
  `i ≥ path.length` is outside the route and its behaviour in C is not
  defined (it may fault): `outside_route` recognises such reads and
  `logic_task_iteration_checked` has no result for a pass that performs one.
* `compass_data.h` is not part of the sources: the records below have the
  fields the three `.c` files use.
-/

namespace SmartCompass

/-! ## Numeric conversions -/

/-- Conversion of an integer value to `int16_t` (two's complement wrap). -/
def to_int16 (z : Int) : Int := (z + 32768) % 65536 - 32768

/-- Conversion of an integer value to `uint16_t`. -/
def to_uint16 (z : Int) : Nat := (z % 65536).toNat

/-- Conversion of an integer value to `uint32_t`. -/
def to_uint32 (z : Int) : Nat := (z % 4294967296).toNat

/-- Conversion of a floating value to an integer: the fractional part is
discarded (truncation toward zero). -/
def trunc {α : Type} [LinearOrderedField α] [FloorRing α] (x : α) : Int :=
  if 0 ≤ x then ⌊x⌋ else ⌈x⌉

/-- The integer nearest to `x`, the even one of the two when `x` lies halfway
between them. -/
def round_half_even {α : Type} [LinearOrderedField α] [FloorRing α] (x : α) : Int :=
  if x - ((⌊x⌋ : Int) : α) < 1 / 2 then ⌊x⌋
  else if 1 / 2 < x - ((⌊x⌋ : Int) : α) then ⌊x⌋ + 1
  else if ⌊x⌋ % 2 = 0 then ⌊x⌋
  else ⌊x⌋ + 1

/-- Rounding to the nearest binary floating-point number with `p` significant
bits, ties to even (the rounding of IEEE 754 arithmetic; overflow and
subnormal numbers are not modelled). -/
def to_binary {α : Type} [LinearOrderedField α] [FloorRing α] (p : Nat) (x : α) : α :=
  if x = 0 then 0
  else
    let e := Int.log 2 |x|
    let ulp : α := (2 : α) ^ (e - ((p : Int) - 1))
    ((round_half_even (x / ulp) : Int) : α) * ulp

/-- Rounding to C `float` (binary32, 24 significant bits). -/
def to_float {α : Type} [LinearOrderedField α] [FloorRing α] (x : α) : α := to_binary 24 x

/-- Rounding to C `double` (binary64, 53 significant bits). -/
def to_double {α : Type} [LinearOrderedField α] [FloorRing α] (x : α) : α := to_binary 53 x

/-! ## Data model -/

/-- The functions and the constant of `<math.h>` used by the firmware. -/
structure libm (α : Type) where
  sin : α → α
  cos : α → α
  sqrt : α → α
  atan2 : α → α → α
  M_PI : α

/-- A geographic point, in degrees (`position` and the elements of `path.nodes`). -/
structure node (α : Type) where
  lat : α
  lon : α

/-- The route: `length` is the number of waypoints and, for `i < length`,
`nodes i` is the waypoint `path.nodes[i]`. For `i ≥ length` the C read
`path.nodes[i]` is outside the route: what it does is not defined (it may
fault), `nodes i` then only stands for the value the read yields if it yields
one, and no property below relies on it (see `outside_route` and
`logic_task_iteration_checked`). -/
structure path_t (α : Type) where
  nodes : Nat → node α
  length : Nat

/-- The record `compass_data` (its mutex is the lock `lock.compass_mutex`). -/
structure compass_data_t (α : Type) where
  bearing : α
  bearing_deg : α
  position : node α
  path : path_t α

/-- The record `display_data` (its mutex is the lock `lock.display_mutex`). -/
structure display_data_t where
  angle : Int
  distance : Nat
  next_wp : Nat
  finished : Bool
deriving DecidableEq, Repr

/-- The two mutexes: L1 is `compass_data.mutex`, L2 is `display_data.mutex`. -/
inductive lock where
  | compass_mutex
  | display_mutex
deriving DecidableEq, Repr

/-- Fields of `display_data`. -/
inductive display_field where
  | angle
  | distance
  | next_wp
  | finished
deriving DecidableEq, Repr

/-- Fields of `compass_data` written by the heading task. -/
inductive compass_field where
  | bearing
  | bearing_deg
deriving DecidableEq, Repr

/-- What a task step does to the shared world, in program order. -/
inductive event where
  /-- The call `xSemaphoreTake` on a mutex, with whether it returned `pdTRUE`. -/
  | take (l : lock) (ok : Bool)
  /-- The call `xSemaphoreGive` on a mutex. -/
  | give (l : lock)
  /-- An evaluation of `path.nodes[i]`. -/
  | read_node (i : Nat)
  /-- An assignment to a field of `display_data`. -/
  | write_display (f : display_field)
  /-- An assignment to a field of `compass_data`. -/
  | write_compass (f : compass_field)
  /-- The call `vTaskDelay`, in milliseconds. -/
  | delay (ms : Nat)
deriving DecidableEq, Repr

/-! ## sc_logic.c -/

/-- The constant `NODE_DETECTION_PRECISION_M`. -/
def NODE_DETECTION_PRECISION_M : Nat := 5

/-- The constant `BEARING_OFFSET_DEGREES`. -/
def BEARING_OFFSET_DEGREES : Int := 0

section logic

variable {α : Type} [LinearOrderedField α] [FloorRing α]

/-- The local `y` of `calculate_angle` (line 34). -/
def bearing_y (m : libm α) (cd : compass_data_t α) (dd : display_data_t) : α :=
  let curr_lon := cd.position.lon * m.M_PI / 180
  let goal_lon := (cd.path.nodes dd.next_wp).lon * m.M_PI / 180
  let goal_lat := (cd.path.nodes dd.next_wp).lat * m.M_PI / 180
  let dLon := goal_lon - curr_lon
  m.sin dLon * m.cos goal_lat

/-- The local `x` of `calculate_angle` (lines 35-36). -/
def bearing_x (m : libm α) (cd : compass_data_t α) (dd : display_data_t) : α :=
  let curr_lon := cd.position.lon * m.M_PI / 180
  let curr_lat := cd.position.lat * m.M_PI / 180
  let goal_lon := (cd.path.nodes dd.next_wp).lon * m.M_PI / 180
  let goal_lat := (cd.path.nodes dd.next_wp).lat * m.M_PI / 180
  let dLon := goal_lon - curr_lon
  m.cos goal_lat * m.sin goal_lat - m.sin curr_lat * m.cos goal_lat * m.cos dLon

/-- The local `bearing` of `calculate_angle` (line 38): the azimuth of the
target before the heading correction, in radians. -/
def target_bearing (m : libm α) (cd : compass_data_t α) (dd : display_data_t) : α :=
  m.atan2 (bearing_y m cd dd) (bearing_x m cd dd)

/-- The first value of the local `angle` of `calculate_angle` (line 40): the
azimuth in tenths of a degree, converted to `int16_t`. -/
def raw_angle (m : libm α) (cd : compass_data_t α) (dd : display_data_t) : Int :=
  to_int16 (trunc (target_bearing m cd dd * 1800 / m.M_PI))

/-- The value `(int16_t)(bearing_angle + BEARING_OFFSET_DEGREES * 10 + 3600)`
of `calculate_angle` (lines 42-43), before the remainder is taken. -/
def heading_int16 (bearing : α) : Int :=
  let bearing_angle := bearing * (1800 / 65536)
  to_int16 (trunc (bearing_angle + ((BEARING_OFFSET_DEGREES * 10 : Int) : α) + 3600))

/-- The integer part of `calculate_angle` (lines 41, 43, 44): `angle` is the
value of line 40 and `h` the converted heading of line 43; `%` of C is
`Int.tmod`. -/
def angle_int (angle : Int) (h : Int) : Int :=
  let angle := to_int16 (Int.tmod (angle + 3600) 3600)
  let bearing_angle_final := to_int16 (Int.tmod h 3600)
  to_int16 (Int.tmod (angle - bearing_angle_final + 3600) 3600)

/-- The function `calculate_angle`: the value it returns and the reads of
`path.nodes` it performs (lines 29 and 30). -/
def calculate_angle (m : libm α) (cd : compass_data_t α) (dd : display_data_t) :
    Int × List event :=
  (angle_int (raw_angle m cd dd) (heading_int16 cd.bearing),
    [event.read_node dd.next_wp, event.read_node dd.next_wp])

/-- The function `calculate_next_wp`; `next_wp + 1` is computed in `int`, the
result is converted to the return type `uint16_t`. -/
def calculate_next_wp (cd : compass_data_t α) (dd : display_data_t) : Nat :=
  if dd.distance > NODE_DETECTION_PRECISION_M then
    to_uint16 dd.next_wp
  else if dd.next_wp + 1 ≥ cd.path.length then
    to_uint16 dd.next_wp
  else
    to_uint16 (dd.next_wp + 1)

/-- The function `calculate_distance`: the value it returns (the cast to
`uint32_t` of line 64, converted to the return type `uint16_t`) and the reads
of `path.nodes` it performs (lines 58, 59 and 62). The differences are
computed in `float`; the products with the `double` constants, the argument
and the result of `cos`, `sqrt` and the product with 1000 in `double`; the
squares and their sum in `float`. -/
def calculate_distance (m : libm α) (cd : compass_data_t α) (dd : display_data_t) :
    Nat × List event :=
  let lon_diff := to_float ((cd.path.nodes dd.next_wp).lon - cd.position.lon)
  let lat_diff := to_float ((cd.path.nodes dd.next_wp).lat - cd.position.lat)
  let lat_km := to_float (to_double (lat_diff * to_double 110.574))
  let lon_km := to_float (to_double (to_double (lon_diff * to_double 111.320)
    * to_double (m.cos (to_double
        (to_double ((cd.path.nodes dd.next_wp).lat * to_double m.M_PI) / 180)))))
  let sum := to_float (to_float (lat_km * lat_km) + to_float (lon_km * lon_km))
  (to_uint16 (to_uint32 (trunc (to_double (to_double (m.sqrt sum) * 1000)))),
    [event.read_node dd.next_wp, event.read_node dd.next_wp, event.read_node dd.next_wp])

/-- Lines 77-79 of `logic_task`: the three assignments to `display_data`, each
seeing the fields written before it. -/
def logic_task_update (m : libm α) (cd : compass_data_t α) (dd : display_data_t) :
    display_data_t × List event :=
  let a := calculate_angle m cd dd
  let dd1 := { dd with angle := a.1 }
  let d := calculate_distance m cd dd1
  let dd2 := { dd1 with distance := d.1 }
  let dd3 := { dd2 with next_wp := calculate_next_wp cd dd2 }
  (dd3, a.2 ++ [event.write_display display_field.angle]
        ++ d.2 ++ [event.write_display display_field.distance]
        ++ [event.write_display display_field.next_wp])

/-- One pass through the body of the loop of `logic_task` (lines 72-86).
`take1` and `take2` are the results of the two calls of `xSemaphoreTake`. -/
def logic_task_iteration (m : libm α) (take1 take2 : Bool) (cd : compass_data_t α)
    (dd : display_data_t) : display_data_t × List event :=
  if take1 then
    if take2 then
      let r := logic_task_update m cd dd
      (r.1, [event.take lock.compass_mutex true, event.take lock.display_mutex true]
            ++ r.2
            ++ [event.give lock.display_mutex, event.give lock.compass_mutex,
                event.delay 1000])
    else
      (dd, [event.take lock.compass_mutex true, event.take lock.display_mutex false,
            event.give lock.compass_mutex, event.delay 1000])
  else
    (dd, [event.take lock.compass_mutex false, event.delay 1000])

/-- Whether the event is a read of `path.nodes[i]` outside a route of the given
length, i.e. with `i ≥ length`. -/
def outside_route (length : Nat) : event → Bool
  | event.read_node i => decide (length ≤ i)
  | _ => false

/-- One pass through the body of the loop of `logic_task` with the reads of
`path.nodes` checked against `path.length`: `none` when the pass performs a
read outside the route (the C behaviour is then not defined), otherwise the
result of `logic_task_iteration`. -/
def logic_task_iteration_checked (m : libm α) (take1 take2 : Bool)
    (cd : compass_data_t α) (dd : display_data_t) : Option (display_data_t × List event) :=
  if (logic_task_iteration m take1 take2 cd dd).2.any (outside_route cd.path.length) then
    none
  else
    some (logic_task_iteration m take1 take2 cd dd)

/-- What one pass of the loop of `logic_task` finds: the results of the two
lock calls and the current content of `compass_data`. -/
structure iteration_t (α : Type) where
  take1 : Bool
  take2 : Bool
  cd : compass_data_t α

/-- The loop of `logic_task` run over a finite sequence of passes: the list of
the values of `display_data`, the starting one first, then the one after each
pass. -/
def logic_task (m : libm α) : List (iteration_t α) → display_data_t → List display_data_t
  | [], dd => [dd]
  | it :: rest, dd =>
    dd :: logic_task m rest (logic_task_iteration m it.take1 it.take2 it.cd dd).1

end logic

/-! ## sc_compass.c -/

/-- The constant `X_OFFSET`. -/
def X_OFFSET : Int := -1711

/-- The constant `Y_OFFSET`. -/
def Y_OFFSET : Int := 2895

section compass

variable {α : Type} [LinearOrderedField α] [FloorRing α]

/-- The constant `ROT_OFFSET_RAD`. -/
def ROT_OFFSET_RAD : α := 4.18879

/-- The function `compass_calibrate`, on the three `int16_t` samples. -/
def compass_calibrate (output : Fin 3 → Int) : Fin 3 → Int :=
  fun i =>
    if i = 0 then to_int16 (output 0 + X_OFFSET)
    else if i = 1 then to_int16 (output 1 + Y_OFFSET)
    else output i

/-- The function `calculate_bearing`. -/
def calculate_bearing (m : libm α) (output : Fin 3 → Int) : α :=
  let x : α := ((output 0 : Int) : α)
  let y : α := ((output 1 : Int) : α)
  m.atan2 y x - ROT_OFFSET_RAD

/-- The loop `while (deg < 0) deg += 360` of `rad_to_deg`; `fuel` bounds the
number of times the body may run, `none` means the bound was not enough. -/
def rad_to_deg_loop : Nat → α → Option α
  | 0, deg => if deg < 0 then none else some deg
  | fuel + 1, deg => if deg < 0 then rad_to_deg_loop fuel (deg + 360) else some deg

/-- The function `rad_to_deg`. -/
def rad_to_deg (m : libm α) (fuel : Nat) (rad : α) : Option α :=
  rad_to_deg_loop fuel (rad * 180 / m.M_PI)

/-- The events of `update_shared_data` (lines 88-92); `take1` is the result of
`xSemaphoreTake`. -/
def update_shared_data_events (take1 : Bool) : List event :=
  if take1 then
    [event.take lock.compass_mutex true,
     event.write_compass compass_field.bearing,
     event.write_compass compass_field.bearing_deg,
     event.give lock.compass_mutex]
  else
    [event.take lock.compass_mutex false]

/-- The function `update_shared_data`: the new content of `compass_data` and
the events performed, `none` when the loop of `rad_to_deg` does not end within
`fuel` passes. -/
def update_shared_data (m : libm α) (fuel : Nat) (take1 : Bool) (output : Fin 3 → Int)
    (cd : compass_data_t α) : Option (compass_data_t α × List event) :=
  let bearing := calculate_bearing m output
  match rad_to_deg m fuel bearing with
  | none => none
  | some bearing_deg =>
    some (if take1 then { cd with bearing := bearing, bearing_deg := bearing_deg } else cd,
          update_shared_data_events take1)

/-- One pass of the loop of `sc_compass_task` after the bus read (lines 100
and 106): `output` is the content of the data registers. -/
def sc_compass_task_iteration (m : libm α) (fuel : Nat) (take1 : Bool)
    (output : Fin 3 → Int) (cd : compass_data_t α) :
    Option (compass_data_t α × List event) :=
  update_shared_data m fuel take1 (compass_calibrate output) cd

end compass

/-! ## sc_display.c -/

/-- What `ui_refresh_task` sets on the widgets. -/
structure ui_t where
  img_angle : Int
  distance_label : String
  next_waypoint_label : String
deriving DecidableEq, Repr

/-- The function `ui_refresh_task`; `take2` is the result of the bounded
`xSemaphoreTake` on the display mutex. -/
def ui_refresh_task (take2 : Bool) (dd : display_data_t) (ui : ui_t) : ui_t × List event :=
  if take2 then
    ({ img_angle := to_int16 dd.angle,
       distance_label := toString dd.distance ++ " m",
       next_waypoint_label :=
         if dd.finished then "FINISH" else "Next: " ++ toString dd.next_wp },
     [event.take lock.display_mutex true, event.give lock.display_mutex])
  else
    (ui, [event.take lock.display_mutex false])

/-! ## Reading an event list -/

/-- The lock operations of an event list: the successful takes and the gives. -/
def lock_ops (es : List event) : List event :=
  es.filter fun e =>
    match e with
    | event.take _ ok => ok
    | event.give _ => true
    | _ => false

/-- Whether the event is a call on the given mutex. -/
def uses_lock (l : lock) : event → Bool
  | event.take k _ => decide (k = l)
  | event.give k => decide (k = l)
  | _ => false

/-- Checks an event list against the locking rules, `held` being the locks
held so far, most recent first: a lock is taken only when not held, the
compass mutex is never taken while the display mutex is held, a give releases
the most recently taken lock, `display_data` is written only under the display
mutex and `compass_data` only under the compass mutex, and no lock is held at
the end. -/
def lock_discipline : List lock → List event → Bool
  | held, [] => held.isEmpty
  | held, event.take l true :: es =>
    !held.contains l
      && !(l == lock.compass_mutex && held.contains lock.display_mutex)
      && lock_discipline (l :: held) es
  | held, event.take _ false :: es => lock_discipline held es
  | held, event.give l :: es =>
    match held with
    | [] => false
    | k :: rest => k == l && lock_discipline rest es
  | held, event.write_display _ :: es =>
    held.contains lock.display_mutex && lock_discipline held es
  | held, event.write_compass _ :: es =>
    held.contains lock.compass_mutex && lock_discipline held es
  | held, event.read_node _ :: es => lock_discipline held es
  | held, event.delay _ :: es => lock_discipline held es

/-! ## Reference formulas of the specification -/

section reference

variable {α : Type} [LinearOrderedField α] [FloorRing α]

/-- The standard forward azimuth of the specification, from the point
`(lat1, lon1)` to the point `(lat2, lon2)`, all in radians:
`atan2 (sin Δlon · cos lat2, cos lat1 · sin lat2 − sin lat1 · cos lat2 · cos Δlon)`. -/
def spec_forward_azimuth (m : libm α) (lat1 lon1 lat2 lon2 : α) : α :=
  let dLon := lon2 - lon1
  let y := m.sin dLon * m.cos lat2
  let x := m.cos lat1 * m.sin lat2 - m.sin lat1 * m.cos lat2 * m.cos dLon
  m.atan2 y x

/-- The equirectangular distance of the specification in whole metres, between
`position` and `target` given in degrees. -/
def spec_distance_m (m : libm α) (position target : node α) : Int :=
  let dlat := target.lat - position.lat
  let dlon := target.lon - position.lon
  ⌊1000 * m.sqrt ((dlat * 110.574) ^ 2
      + (dlon * 111.320 * m.cos (target.lat * m.M_PI / 180)) ^ 2)⌋

end reference

/-! ## Concrete inputs -/

section inputs

variable (α : Type) [LinearOrderedField α] [FloorRing α]

/-- Position at latitude 0, longitude 0; every waypoint of the route is the
point at latitude 1, longitude 0; `length` as given. -/
def cd_north (length : Nat) : compass_data_t α :=
  { bearing := 0, bearing_deg := 0,
    position := { lat := 0, lon := 0 },
    path := { nodes := fun _ => { lat := 1, lon := 0 }, length := length } }

/-- Position at latitude 0, longitude 0; a route of one waypoint, the point at
latitude 45, longitude 90. -/
def cd_azimuth : compass_data_t α :=
  { bearing := 0, bearing_deg := 0,
    position := { lat := 0, lon := 0 },
    path := { nodes := fun _ => { lat := 45, lon := 90 }, length := 1 } }

/-- Position at latitude 0, longitude 0, and every waypoint of the route is
that same point; `length` as given. -/
def cd_arrived (length : Nat) : compass_data_t α :=
  { bearing := 0, bearing_deg := 0,
    position := { lat := 0, lon := 0 },
    path := { nodes := fun _ => { lat := 0, lon := 0 }, length := length } }

end inputs

/-- The start value of `display_data`: every field zero, `finished` false. -/
def dd_start : display_data_t :=
  { angle := 0, distance := 0, next_wp := 0, finished := false }

/-! ## Conversions: basic facts -/

theorem to_uint16_of_lt (n : Nat) (h : n < 65536) : to_uint16 (n : Int) = n := by
  unfold to_uint16
  omega

theorem to_uint16_succ_of_lt (n : Nat) (h : n + 1 < 65536) :
    to_uint16 ((n : Int) + 1) = n + 1 := by
  unfold to_uint16
  omega

theorem to_uint16_lt (z : Int) : to_uint16 z < 65536 := by
  unfold to_uint16
  omega

theorem to_int16_of_range (z : Int) (h1 : -32768 ≤ z) (h2 : z ≤ 32767) : to_int16 z = z := by
  unfold to_int16
  omega

theorem to_int16_range (z : Int) : -32768 ≤ to_int16 z ∧ to_int16 z ≤ 32767 := by
  unfold to_int16
  omega

/-! ## Waypoint advancement -/

theorem calculate_next_wp_eq {α : Type} (cd : compass_data_t α) (dd : display_data_t)
    (hi : dd.next_wp < 65536) (hn : cd.path.length < 65536) :
    calculate_next_wp cd dd =
      if dd.distance ≤ 5 ∧ dd.next_wp + 1 < cd.path.length then dd.next_wp + 1
      else dd.next_wp := by
  unfold calculate_next_wp NODE_DETECTION_PRECISION_M
  by_cases hd : dd.distance > 5
  · have hnot : ¬ (dd.distance ≤ 5 ∧ dd.next_wp + 1 < cd.path.length) := by omega
    rw [if_pos hd, if_neg hnot]
    exact to_uint16_of_lt _ hi
  · rw [if_neg hd]
    by_cases hlen : dd.next_wp + 1 ≥ cd.path.length
    · have hnot : ¬ (dd.distance ≤ 5 ∧ dd.next_wp + 1 < cd.path.length) := by omega
      rw [if_pos hlen, if_neg hnot]
      exact to_uint16_of_lt _ hi
    · have hyes : dd.distance ≤ 5 ∧ dd.next_wp + 1 < cd.path.length := by omega
      rw [if_neg hlen, if_pos hyes]
      exact to_uint16_succ_of_lt _ (by omega)

/-- C1. Waypoint advancement rule: for every current index `next_wp` (a 16-bit
value), every route length that fits the 16-bit index and every distance
stored in the same pass, `calculate_next_wp` returns `next_wp + 1` when the
distance is at most 5 and `next_wp + 1` is below the route length, and
`next_wp` unchanged in every other case. -/
theorem calculate_next_wp_rule {α : Type} (cd : compass_data_t α) (dd : display_data_t)
    (hi : dd.next_wp < 65536) (hn : cd.path.length < 65536) :
    (dd.distance ≤ 5 ∧ dd.next_wp + 1 < cd.path.length →
        calculate_next_wp cd dd = dd.next_wp + 1) ∧
    (¬ (dd.distance ≤ 5 ∧ dd.next_wp + 1 < cd.path.length) →
        calculate_next_wp cd dd = dd.next_wp) := by
  rw [calculate_next_wp_eq cd dd hi hn]
  constructor
  · intro h
    rw [if_pos h]
  · intro h
    rw [if_neg h]

/-- Witness of C1: on a route of three waypoints, index 1 and distance 4 give
index 2. -/
theorem calculate_next_wp_rule_witness :
    calculate_next_wp (cd_north ℚ 3)
      { angle := 0, distance := 4, next_wp := 1, finished := false } = 2 :=
  (calculate_next_wp_rule (cd_north ℚ 3)
      { angle := 0, distance := 4, next_wp := 1, finished := false }
      (by decide) (by decide)).1 (by decide)

/-! ## The waypoint index over a run of `logic_task` -/

theorem logic_task_iteration_next_wp {α : Type} [LinearOrderedField α] [FloorRing α]
    (m : libm α) (take1 take2 : Bool) (cd : compass_data_t α) (dd : display_data_t) :
    (logic_task_iteration m take1 take2 cd dd).1.next_wp = dd.next_wp ∨
    (logic_task_iteration m take1 take2 cd dd).1.next_wp =
      calculate_next_wp cd
        { dd with angle := (calculate_angle m cd dd).1,
                  distance := (calculate_distance m cd
                    { dd with angle := (calculate_angle m cd dd).1 }).1 } := by
  cases take1 <;> cases take2 <;> simp [logic_task_iteration, logic_task_update]

theorem logic_task_iteration_step {α : Type} [LinearOrderedField α] [FloorRing α]
    (m : libm α) (take1 take2 : Bool) (cd : compass_data_t α) (dd : display_data_t)
    (hn : cd.path.length < 65536) (h0 : dd.next_wp < cd.path.length) :
    dd.next_wp ≤ (logic_task_iteration m take1 take2 cd dd).1.next_wp ∧
    (logic_task_iteration m take1 take2 cd dd).1.next_wp < cd.path.length := by
  rcases logic_task_iteration_next_wp m take1 take2 cd dd with h | h
  · rw [h]
    exact ⟨le_refl _, h0⟩
  · rw [h, calculate_next_wp_eq cd _ (by simp only; omega) hn]
    simp only
    split
    · rename_i hc
      exact ⟨by omega, hc.2⟩
    · exact ⟨le_refl _, h0⟩

theorem logic_task_states_bound {α : Type} [LinearOrderedField α] [FloorRing α]
    (m : libm α) (n : Nat) (hn : n < 65536) (its : List (iteration_t α)) :
    ∀ dd : display_data_t, (∀ it ∈ its, it.cd.path.length = n) → dd.next_wp < n →
      ∀ s ∈ logic_task m its dd, dd.next_wp ≤ s.next_wp ∧ s.next_wp < n := by
  induction its with
  | nil =>
    intro dd _ h0 s hs
    simp only [logic_task, List.mem_singleton] at hs
    subst hs
    exact ⟨le_refl _, h0⟩
  | cons it rest ih =>
    intro dd hroute h0 s hs
    simp only [logic_task, List.mem_cons] at hs
    have hlen : it.cd.path.length = n := hroute it (List.mem_cons_self _ _)
    have hstep := logic_task_iteration_step m it.take1 it.take2 it.cd dd
      (by omega) (by omega)
    rcases hs with hs | hs
    · subst hs
      exact ⟨le_refl _, h0⟩
    · have hrest := ih _ (fun j hj => hroute j (List.mem_cons_of_mem _ hj))
        (by omega) s hs
      omega

/-- C2. Waypoint index invariant: for a fixed route whose length `n` fits the
16-bit index and a starting index below `n`, over any finite sequence of
passes of the loop of `logic_task` (arbitrary positions, headings and lock
results) the values of `next_wp`, in the order they are stored, never decrease,
never exceed `n - 1`, and once `next_wp` equals `n - 1` every later value
equals `n - 1`. -/
theorem logic_task_next_wp_invariant {α : Type} [LinearOrderedField α] [FloorRing α]
    (m : libm α) (n : Nat) (its : List (iteration_t α)) (dd : display_data_t)
    (hn : n < 65536) (hroute : ∀ it ∈ its, it.cd.path.length = n)
    (h0 : dd.next_wp < n) :
    List.Pairwise
        (fun a b => a.next_wp ≤ b.next_wp ∧ (a.next_wp = n - 1 → b.next_wp = n - 1))
        (logic_task m its dd) ∧
      ∀ s ∈ logic_task m its dd, s.next_wp ≤ n - 1 := by
  constructor
  · induction its generalizing dd with
    | nil => simp [logic_task]
    | cons it rest ih =>
      simp only [logic_task, List.pairwise_cons]
      have hlen : it.cd.path.length = n := hroute it (List.mem_cons_self _ _)
      have hstep := logic_task_iteration_step m it.take1 it.take2 it.cd dd
        (by omega) (by omega)
      constructor
      · intro s hs
        have hb := logic_task_states_bound m n hn rest _
          (fun j hj => hroute j (List.mem_cons_of_mem _ hj)) (by omega) s hs
        omega
      · exact ih _ (fun j hj => hroute j (List.mem_cons_of_mem _ hj)) (by omega)
  · intro s hs
    have hb := logic_task_states_bound m n hn its dd hroute h0 s hs
    omega

/-! ## The angle -/

theorem tmod_3600_range (h : Int) : -3600 < Int.tmod h 3600 ∧ Int.tmod h 3600 < 3600 := by
  refine ⟨?_, Int.tmod_lt_of_pos h (by decide)⟩
  cases h with
  | ofNat n =>
    have h0 : 0 ≤ Int.tmod (Int.ofNat n) 3600 := Int.tmod_nonneg 3600 (Int.ofNat_nonneg n)
    omega
  | negSucc n =>
    have h1 : Int.tmod (Int.negSucc n) 3600 = -Int.ofNat ((n + 1) % 3600) := rfl
    rw [h1]
    have h2 : (n + 1) % 3600 < 3600 := Nat.mod_lt _ (by decide)
    simp only [Int.ofNat_eq_coe]
    omega

theorem trunc_range {α : Type} [LinearOrderedField α] [FloorRing α] (x : α) (lo hi : Int)
    (hlo : lo ≤ 0) (hhi : 0 ≤ hi) (h1 : (lo : α) ≤ x) (h2 : x ≤ (hi : α)) :
    lo ≤ trunc x ∧ trunc x ≤ hi := by
  unfold trunc
  split
  · rename_i hx
    constructor
    · exact le_trans hlo (Int.floor_nonneg.mpr hx)
    · have h3 : ((⌊x⌋ : Int) : α) ≤ (hi : α) := le_trans (Int.floor_le x) h2
      exact Int.cast_le.mp h3
  · rename_i hx
    constructor
    · have h3 : (lo : α) ≤ ((⌈x⌉ : Int) : α) := le_trans h1 (Int.le_ceil x)
      exact Int.cast_le.mp h3
    · have h4 : x ≤ ((0 : Int) : α) := by
        rw [Int.cast_zero]
        exact le_of_lt (lt_of_not_ge hx)
      exact le_trans (Int.ceil_le.mpr h4) hhi

theorem raw_angle_range {α : Type} [LinearOrderedField α] [FloorRing α] (m : libm α)
    (hpi : 0 < m.M_PI)
    (hat : ∀ y x : α, -m.M_PI ≤ m.atan2 y x ∧ m.atan2 y x ≤ m.M_PI)
    (cd : compass_data_t α) (dd : display_data_t) :
    -1800 ≤ raw_angle m cd dd ∧ raw_angle m cd dd ≤ 1800 := by
  unfold raw_angle target_bearing
  obtain ⟨hl, hu⟩ := hat (bearing_y m cd dd) (bearing_x m cd dd)
  have h1 : ((-1800 : Int) : α) ≤ m.atan2 (bearing_y m cd dd) (bearing_x m cd dd) * 1800 / m.M_PI := by
    rw [le_div_iff₀ hpi]
    push_cast
    linarith
  have h2 : m.atan2 (bearing_y m cd dd) (bearing_x m cd dd) * 1800 / m.M_PI ≤ ((1800 : Int) : α) := by
    rw [div_le_iff₀ hpi]
    push_cast
    linarith
  have h3 := trunc_range _ (-1800) 1800 (by decide) (by decide) h1 h2
  rw [to_int16_of_range _ (by omega) (by omega)]
  exact h3

theorem angle_int_eq (a h : Int) (ha1 : -1800 ≤ a) (ha2 : a ≤ 1800) :
    angle_int a h = ((a + 3600) % 3600 - Int.tmod h 3600 + 3600) % 3600 := by
  unfold angle_int
  obtain ⟨hh1, hh2⟩ := tmod_3600_range h
  have e1 : Int.tmod (a + 3600) 3600 = (a + 3600) % 3600 :=
    Int.tmod_eq_emod (by omega) (by decide)
  simp only [e1]
  rw [to_int16_of_range ((a + 3600) % 3600) (by omega) (by omega),
    to_int16_of_range (Int.tmod h 3600) (by omega) (by omega)]
  have e2 : Int.tmod ((a + 3600) % 3600 - Int.tmod h 3600 + 3600) 3600
      = ((a + 3600) % 3600 - Int.tmod h 3600 + 3600) % 3600 :=
    Int.tmod_eq_emod (by omega) (by decide)
  rw [e2]
  exact to_int16_of_range _ (by omega) (by omega)

theorem angle_int_range (a h : Int) (ha1 : -1800 ≤ a) (ha2 : a ≤ 1800) :
    0 ≤ angle_int a h ∧ angle_int a h < 3600 := by
  rw [angle_int_eq a h ha1 ha2]
  omega

/-- C4. Angle range: with `atan2` between `-M_PI` and `M_PI`, for every
position, target waypoint and heading value the angle `calculate_angle`
returns, and that a pass of `logic_task` stores in `display_data.angle`, is at
least 0 and below 3600; and over the integer part of the computation, for every
raw azimuth `a` in `[-1800, 1800]` and every heading term `h`, the value
`((a + 3600) % 3600 - (h % 3600) + 3600) % 3600` with the truncating remainder
of C is what the code computes and is at least 0 and below 3600. -/
theorem calculate_angle_range {α : Type} [LinearOrderedField α] [FloorRing α]
    (m : libm α) (hpi : 0 < m.M_PI)
    (hat : ∀ y x : α, -m.M_PI ≤ m.atan2 y x ∧ m.atan2 y x ≤ m.M_PI) :
    (∀ (cd : compass_data_t α) (dd : display_data_t),
      (0 ≤ (calculate_angle m cd dd).1 ∧ (calculate_angle m cd dd).1 < 3600) ∧
      (0 ≤ (logic_task_iteration m true true cd dd).1.angle ∧
        (logic_task_iteration m true true cd dd).1.angle < 3600)) ∧
    (∀ a h : Int, -1800 ≤ a → a ≤ 1800 → -32768 ≤ h → h ≤ 32767 →
      angle_int a h
        = Int.tmod (Int.tmod (a + 3600) 3600 - Int.tmod h 3600 + 3600) 3600 ∧
      0 ≤ Int.tmod (Int.tmod (a + 3600) 3600 - Int.tmod h 3600 + 3600) 3600 ∧
      Int.tmod (Int.tmod (a + 3600) 3600 - Int.tmod h 3600 + 3600) 3600 < 3600) := by
  constructor
  · intro cd dd
    obtain ⟨h1, h2⟩ := raw_angle_range m hpi hat cd dd
    have hr := angle_int_range (raw_angle m cd dd) (heading_int16 cd.bearing) h1 h2
    exact ⟨hr, by simpa [logic_task_iteration, logic_task_update, calculate_angle] using hr⟩
  · intro a h ha1 ha2 _ _
    obtain ⟨hh1, hh2⟩ := tmod_3600_range h
    have e1 : Int.tmod (a + 3600) 3600 = (a + 3600) % 3600 :=
      Int.tmod_eq_emod (by omega) (by decide)
    have e2 : Int.tmod ((a + 3600) % 3600 - Int.tmod h 3600 + 3600) 3600
        = ((a + 3600) % 3600 - Int.tmod h 3600 + 3600) % 3600 :=
      Int.tmod_eq_emod (by omega) (by decide)
    rw [e1, e2, angle_int_eq a h ha1 ha2]
    omega

/-- Witness of C4: the exact functions of real analysis, the target at
latitude 45, longitude 90 seen from latitude 0, longitude 0, and the integer
part at `a = 450`, `h = 3599`. -/
theorem calculate_angle_range_witness :
    (0 ≤ (calculate_angle
            (⟨Real.sin, Real.cos, Real.sqrt, fun y x => Complex.arg ⟨x, y⟩, Real.pi⟩ : libm ℝ)
            (cd_azimuth ℝ) dd_start).1 ∧
      (calculate_angle
            (⟨Real.sin, Real.cos, Real.sqrt, fun y x => Complex.arg ⟨x, y⟩, Real.pi⟩ : libm ℝ)
            (cd_azimuth ℝ) dd_start).1 < 3600) ∧
    (0 ≤ Int.tmod (Int.tmod (450 + 3600) 3600 - Int.tmod 3599 3600 + 3600) 3600 ∧
      Int.tmod (Int.tmod (450 + 3600) 3600 - Int.tmod 3599 3600 + 3600) 3600 < 3600) :=
  have h := calculate_angle_range
    (⟨Real.sin, Real.cos, Real.sqrt, fun y x => Complex.arg ⟨x, y⟩, Real.pi⟩ : libm ℝ)
    Real.pi_pos
    (fun _ _ => ⟨le_of_lt (Complex.neg_pi_lt_arg _), Complex.arg_le_pi _⟩)
  ⟨(h.1 (cd_azimuth ℝ) dd_start).1,
    (h.2 450 3599 (by decide) (by decide) (by decide) (by decide)).2⟩

/-- Witness of C2: two passes on a route of two waypoints, the position on
the waypoints. -/
theorem logic_task_next_wp_invariant_witness :
    List.Pairwise
        (fun a b : display_data_t =>
          a.next_wp ≤ b.next_wp ∧ (a.next_wp = 2 - 1 → b.next_wp = 2 - 1))
        (logic_task
          (⟨Real.sin, Real.cos, Real.sqrt, fun y x => Complex.arg ⟨x, y⟩, Real.pi⟩ : libm ℝ)
          [⟨true, true, cd_arrived ℝ 2⟩, ⟨true, true, cd_arrived ℝ 2⟩] dd_start) ∧
      ∀ s ∈ logic_task
          (⟨Real.sin, Real.cos, Real.sqrt, fun y x => Complex.arg ⟨x, y⟩, Real.pi⟩ : libm ℝ)
          [⟨true, true, cd_arrived ℝ 2⟩, ⟨true, true, cd_arrived ℝ 2⟩] dd_start,
        s.next_wp ≤ 2 - 1 :=
  logic_task_next_wp_invariant
    (⟨Real.sin, Real.cos, Real.sqrt, fun y x => Complex.arg ⟨x, y⟩, Real.pi⟩ : libm ℝ)
    2 [⟨true, true, cd_arrived ℝ 2⟩, ⟨true, true, cd_arrived ℝ 2⟩] dd_start
    (by decide) (by simp [cd_arrived]) (by decide)

/-! ## The heading term of `calculate_angle` -/

theorem heading_int16_eq {α : Type} [LinearOrderedField α] [FloorRing α] (b : α)
    (h1 : -36 ≤ b) (h2 : b < 0) : heading_int16 b = 3599 := by
  unfold heading_int16 BEARING_OFFSET_DEGREES
  simp only [zero_mul, Int.cast_zero, add_zero]
  have hx1 : (3599 : α) ≤ b * (1800 / 65536) + 3600 := by linarith
  have hx2 : b * (1800 / 65536) + 3600 < 3600 := by linarith
  have hfl : ⌊b * (1800 / 65536) + 3600⌋ = 3599 := by
    rw [Int.floor_eq_iff]
    constructor
    · push_cast
      exact hx1
    · push_cast
      linarith
  have h0 : (0 : α) ≤ b * (1800 / 65536) + 3600 := by linarith
  unfold trunc
  rw [if_pos h0, hfl]
  rfl

theorem angle_int_heading (a : Int) (ha1 : -1800 ≤ a) (ha2 : a ≤ 1800) :
    angle_int a 3599 = (a + 1) % 3600 := by
  rw [angle_int_eq a 3599 ha1 ha2]
  have e : Int.tmod 3599 3600 = 3599 := by decide
  rw [e]
  omega

/-- C10. The heading term is constant over everything the heading task
produces. With `atan2` between `-π` and `π`: every value `calculate_bearing`
yields (the value `update_shared_data` stores in `compass_data.bearing`) lies
between `-π - 4.18879` and `π - 4.18879`; for every such `b` the heading term
`(int16_t)(b * (1800 / 65536) + 0 + 3600) % 3600` equals 3599; the angle
returned is then `(a + 1) mod 3600`, `a` being the azimuth of the target in
tenths of a degree, and it is the same for any two such headings. -/
theorem heading_term_constant (m : libm ℝ) (hpi : m.M_PI = Real.pi)
    (hat : ∀ y x : ℝ, -Real.pi ≤ m.atan2 y x ∧ m.atan2 y x ≤ Real.pi) :
    (∀ output : Fin 3 → Int,
      -Real.pi - 4.18879 ≤ calculate_bearing m output ∧
        calculate_bearing m output ≤ Real.pi - 4.18879) ∧
    (∀ b : ℝ, -Real.pi - 4.18879 ≤ b → b ≤ Real.pi - 4.18879 →
      Int.tmod (heading_int16 b) 3600 = 3599) ∧
    (∀ (cd : compass_data_t ℝ) (dd : display_data_t),
      -Real.pi - 4.18879 ≤ cd.bearing → cd.bearing ≤ Real.pi - 4.18879 →
      (calculate_angle m cd dd).1 = (raw_angle m cd dd + 1) % 3600) ∧
    (∀ (cd : compass_data_t ℝ) (dd : display_data_t) (b : ℝ),
      -Real.pi - 4.18879 ≤ cd.bearing → cd.bearing ≤ Real.pi - 4.18879 →
      -Real.pi - 4.18879 ≤ b → b ≤ Real.pi - 4.18879 →
      (calculate_angle m { cd with bearing := b } dd).1 = (calculate_angle m cd dd).1) := by
  have h3 : (3 : ℝ) < Real.pi := Real.pi_gt_three
  have h4 : Real.pi ≤ 4 := Real.pi_le_four
  have hat2 : ∀ y x : ℝ, -m.M_PI ≤ m.atan2 y x ∧ m.atan2 y x ≤ m.M_PI := by
    rw [hpi]
    exact hat
  have hpos : 0 < m.M_PI := by
    rw [hpi]
    exact Real.pi_pos
  have hterm : ∀ b : ℝ, -Real.pi - 4.18879 ≤ b → b ≤ Real.pi - 4.18879 →
      heading_int16 b = 3599 := by
    intro b hb1 hb2
    exact heading_int16_eq b (by norm_num at hb1 ⊢; linarith) (by norm_num at hb2 ⊢; linarith)
  have hangle : ∀ (cd : compass_data_t ℝ) (dd : display_data_t),
      -Real.pi - 4.18879 ≤ cd.bearing → cd.bearing ≤ Real.pi - 4.18879 →
      (calculate_angle m cd dd).1 = (raw_angle m cd dd + 1) % 3600 := by
    intro cd dd hb1 hb2
    obtain ⟨hr1, hr2⟩ := raw_angle_range m hpos hat2 cd dd
    show angle_int (raw_angle m cd dd) (heading_int16 cd.bearing) = _
    rw [hterm cd.bearing hb1 hb2]
    exact angle_int_heading _ hr1 hr2
  refine ⟨?_, ?_, hangle, ?_⟩
  · intro output
    obtain ⟨hl, hu⟩ := hat ((output 1 : Int) : ℝ) ((output 0 : Int) : ℝ)
    unfold calculate_bearing ROT_OFFSET_RAD
    constructor
    · simp only
      linarith
    · simp only
      linarith
  · intro b hb1 hb2
    rw [hterm b hb1 hb2]
    decide
  · intro cd dd b hc1 hc2 hb1 hb2
    rw [hangle cd dd hc1 hc2, hangle { cd with bearing := b } dd hb1 hb2]
    rfl

/-- Witness of C10: the exact functions of real analysis and the calibrated
samples `x = 1`, `y = 1`. -/
theorem heading_term_constant_witness :
    Int.tmod (heading_int16 (calculate_bearing
      (⟨Real.sin, Real.cos, Real.sqrt, fun y x => Complex.arg ⟨x, y⟩, Real.pi⟩ : libm ℝ)
      (fun _ => 1))) 3600 = 3599 :=
  have h := heading_term_constant
    (⟨Real.sin, Real.cos, Real.sqrt, fun y x => Complex.arg ⟨x, y⟩, Real.pi⟩ : libm ℝ)
    rfl
    (fun _ _ => ⟨le_of_lt (Complex.neg_pi_lt_arg _), Complex.arg_le_pi _⟩)
  h.2.1 _ (h.1 (fun _ => 1)).1 (h.1 (fun _ => 1)).2

/-! ## The heading task -/

theorem rad_to_deg_loop_nonneg {α : Type} [LinearOrderedField α] (fuel : Nat) (deg : α)
    (h : 0 ≤ deg) : rad_to_deg_loop fuel deg = some deg := by
  cases fuel with
  | zero => simp [rad_to_deg_loop, not_lt.mpr h]
  | succ k => simp [rad_to_deg_loop, not_lt.mpr h]

theorem rad_to_deg_loop_once {α : Type} [LinearOrderedField α] (fuel : Nat) (deg : α)
    (hfuel : 1 ≤ fuel) (h1 : -360 ≤ deg) (h2 : deg < 0) :
    rad_to_deg_loop fuel deg = some (deg + 360) := by
  cases fuel with
  | zero => omega
  | succ k =>
    simp only [rad_to_deg_loop, if_pos h2]
    exact rad_to_deg_loop_nonneg k _ (by linarith)

theorem rad_to_deg_loop_twice {α : Type} [LinearOrderedField α] (fuel : Nat) (deg : α)
    (hfuel : 2 ≤ fuel) (h1 : -720 ≤ deg) (h2 : deg < -360) :
    rad_to_deg_loop fuel deg = some (deg + 360 + 360) := by
  cases fuel with
  | zero => omega
  | succ k =>
    have hneg : deg < 0 := by linarith
    simp only [rad_to_deg_loop, if_pos hneg]
    exact rad_to_deg_loop_once k _ (by omega) (by linarith) (by linarith)

theorem rad_to_deg_calculate_bearing (m : libm ℝ) (hpi : m.M_PI = Real.pi)
    (hat : ∀ y x : ℝ, -Real.pi ≤ m.atan2 y x ∧ m.atan2 y x ≤ Real.pi)
    (output : Fin 3 → Int) :
    -720 ≤ calculate_bearing m output * 180 / m.M_PI ∧
      calculate_bearing m output * 180 / m.M_PI < 0 := by
  have h3 : (3 : ℝ) < Real.pi := Real.pi_gt_three
  have h4 : Real.pi ≤ 4 := Real.pi_le_four
  have hpos : (0 : ℝ) < Real.pi := Real.pi_pos
  obtain ⟨hl, hu⟩ := hat ((output 1 : Int) : ℝ) ((output 0 : Int) : ℝ)
  have hb1 : -Real.pi - 4.18879 ≤ calculate_bearing m output := by
    unfold calculate_bearing ROT_OFFSET_RAD
    simp only
    linarith
  have hb2 : calculate_bearing m output ≤ Real.pi - 4.18879 := by
    unfold calculate_bearing ROT_OFFSET_RAD
    simp only
    linarith
  constructor
  · rw [hpi, le_div_iff₀ hpos]
    norm_num at hb1 ⊢
    linarith
  · rw [hpi, div_lt_iff₀ hpos]
    norm_num at hb2 ⊢
    linarith

/-- C7. Heading range: with `atan2` between `-π` and `π` and exact
arithmetic, for every pair of calibrated axis samples the loop of `rad_to_deg`
applied to `atan2 (y, x) - 4.18879` ends after at most two additions of 360
(every bound of at least two passes is enough), the bearing it returns is at
least 0 and below 360, and it is the value `update_shared_data` stores in
`bearing_deg`. -/
theorem rad_to_deg_range (m : libm ℝ) (hpi : m.M_PI = Real.pi)
    (hat : ∀ y x : ℝ, -Real.pi ≤ m.atan2 y x ∧ m.atan2 y x ≤ Real.pi)
    (output : Fin 3 → Int) :
    ∃ r : ℝ,
      (∀ fuel : Nat, 2 ≤ fuel →
        rad_to_deg m fuel (calculate_bearing m output) = some r) ∧
      (∃ k : Nat, k ≤ 2 ∧ r = calculate_bearing m output * 180 / m.M_PI + 360 * (k : ℝ)) ∧
      (0 ≤ r ∧ r < 360) ∧
      (∀ (fuel : Nat) (cd : compass_data_t ℝ), 2 ≤ fuel →
        Option.map (fun p => p.1.bearing_deg) (update_shared_data m fuel true output cd)
          = some r) := by
  obtain ⟨hd1, hd2⟩ := rad_to_deg_calculate_bearing m hpi hat output
  have hstore : ∀ r : ℝ,
      (∀ fuel : Nat, 2 ≤ fuel → rad_to_deg m fuel (calculate_bearing m output) = some r) →
      ∀ (fuel : Nat) (cd : compass_data_t ℝ), 2 ≤ fuel →
        Option.map (fun p => p.1.bearing_deg) (update_shared_data m fuel true output cd)
          = some r := by
    intro r hr fuel cd hfuel
    unfold update_shared_data
    simp only
    rw [hr fuel hfuel]
    rfl
  by_cases hc : calculate_bearing m output * 180 / m.M_PI < -360
  · have hrun : ∀ fuel : Nat, 2 ≤ fuel →
        rad_to_deg m fuel (calculate_bearing m output)
          = some (calculate_bearing m output * 180 / m.M_PI + 360 + 360) :=
      fun fuel hfuel => rad_to_deg_loop_twice fuel _ hfuel hd1 hc
    refine ⟨_, hrun, ⟨2, le_refl _, ?_⟩, ⟨?_, ?_⟩, hstore _ hrun⟩
    · push_cast
      ring
    · linarith
    · linarith
  · have hc2 : -360 ≤ calculate_bearing m output * 180 / m.M_PI := not_lt.mp hc
    have hrun : ∀ fuel : Nat, 2 ≤ fuel →
        rad_to_deg m fuel (calculate_bearing m output)
          = some (calculate_bearing m output * 180 / m.M_PI + 360) :=
      fun fuel hfuel => rad_to_deg_loop_once fuel _ (by omega) hc2 hd2
    refine ⟨_, hrun, ⟨1, by decide, ?_⟩, ⟨?_, ?_⟩, hstore _ hrun⟩
    · push_cast
      ring
    · linarith
    · linarith

/-- Witness of C7: the exact functions of real analysis and the calibrated
samples `x = 1`, `y = 1`. -/
theorem rad_to_deg_range_witness :
    ∃ r : ℝ,
      (∀ fuel : Nat, 2 ≤ fuel →
        rad_to_deg
          (⟨Real.sin, Real.cos, Real.sqrt, fun y x => Complex.arg ⟨x, y⟩, Real.pi⟩ : libm ℝ)
          fuel
          (calculate_bearing
            (⟨Real.sin, Real.cos, Real.sqrt, fun y x => Complex.arg ⟨x, y⟩, Real.pi⟩ : libm ℝ)
            (fun _ => 1)) = some r) ∧
      (∃ k : Nat, k ≤ 2 ∧
        r = calculate_bearing
            (⟨Real.sin, Real.cos, Real.sqrt, fun y x => Complex.arg ⟨x, y⟩, Real.pi⟩ : libm ℝ)
            (fun _ => 1) * 180 / Real.pi + 360 * (k : ℝ)) ∧
      (0 ≤ r ∧ r < 360) ∧
      (∀ (fuel : Nat) (cd : compass_data_t ℝ), 2 ≤ fuel →
        Option.map (fun p => p.1.bearing_deg)
          (update_shared_data
            (⟨Real.sin, Real.cos, Real.sqrt, fun y x => Complex.arg ⟨x, y⟩, Real.pi⟩ : libm ℝ)
            fuel true (fun _ => 1) cd)
          = some r) :=
  rad_to_deg_range
    (⟨Real.sin, Real.cos, Real.sqrt, fun y x => Complex.arg ⟨x, y⟩, Real.pi⟩ : libm ℝ)
    rfl
    (fun _ _ => ⟨le_of_lt (Complex.neg_pi_lt_arg _), Complex.arg_le_pi _⟩)
    (fun _ => 1)

/-! ## Lock order -/

theorem logic_task_iteration_events {α : Type} [LinearOrderedField α] [FloorRing α]
    (m : libm α) (cd : compass_data_t α) (dd : display_data_t) :
    (logic_task_iteration m true true cd dd).2 =
      [event.take lock.compass_mutex true, event.take lock.display_mutex true,
       event.read_node dd.next_wp, event.read_node dd.next_wp,
       event.write_display display_field.angle,
       event.read_node dd.next_wp, event.read_node dd.next_wp, event.read_node dd.next_wp,
       event.write_display display_field.distance,
       event.write_display display_field.next_wp,
       event.give lock.display_mutex, event.give lock.compass_mutex,
       event.delay 1000] := by
  simp [logic_task_iteration, logic_task_update, calculate_angle, calculate_distance]

/-- C8. Lock ordering: a pass of `logic_task` in which both takes succeed
performs the lock operations take L1, take L2, give L2, give L1, in this
order; whatever the two takes return, the events of the pass obey the locking
rules checked by `lock_discipline` (L1 is never taken while L2 is held, every
write to `display_data` happens while L2 is held, a give releases the lock
taken last, and no lock is held when the pass ends); `update_shared_data` makes
no call on L2 and `ui_refresh_task` none on L1, and both obey the same
rules. -/
theorem lock_ordering {α : Type} [LinearOrderedField α] [FloorRing α]
    (m : libm α) (cd : compass_data_t α) (dd : display_data_t) (ui : ui_t)
    (fuel : Nat) (output : Fin 3 → Int) :
    lock_ops (logic_task_iteration m true true cd dd).2 =
      [event.take lock.compass_mutex true, event.take lock.display_mutex true,
       event.give lock.display_mutex, event.give lock.compass_mutex] ∧
    (∀ take1 take2 : Bool,
      lock_discipline [] (logic_task_iteration m take1 take2 cd dd).2 = true) ∧
    (∀ take1 : Bool,
      Option.map Prod.snd (update_shared_data m fuel take1 output cd) =
        Option.map (fun _ => update_shared_data_events take1)
          (rad_to_deg m fuel (calculate_bearing m output)) ∧
      (update_shared_data_events take1).all
        (fun e => !uses_lock lock.display_mutex e) = true ∧
      lock_discipline [] (update_shared_data_events take1) = true) ∧
    (∀ take2 : Bool,
      (ui_refresh_task take2 dd ui).2.all
        (fun e => !uses_lock lock.compass_mutex e) = true ∧
      lock_discipline [] (ui_refresh_task take2 dd ui).2 = true) := by
  refine ⟨?_, ?_, ?_, ?_⟩
  · rw [logic_task_iteration_events]
    rfl
  · intro take1 take2
    cases take1
    · rfl
    · cases take2
      · rfl
      · rw [logic_task_iteration_events]
        rfl
  · intro take1
    refine ⟨?_, ?_, ?_⟩
    · unfold update_shared_data
      simp only
      cases hr : rad_to_deg m fuel (calculate_bearing m output) <;> rfl
    · cases take1 <;> rfl
    · cases take1 <;> rfl
  · intro take2
    cases take2 <;> exact ⟨rfl, rfl⟩

/-! ## Rounding: basic facts -/

theorem round_half_even_eq {α : Type} [LinearOrderedField α] [FloorRing α] (y : α) (n : Int)
    (h1 : (n : α) - 1 / 2 < y) (h2 : y < (n : α) + 1 / 2) : round_half_even y = n := by
  unfold round_half_even
  by_cases hy : (n : α) ≤ y
  · have hf : ⌊y⌋ = n := by
      rw [Int.floor_eq_iff]
      exact ⟨hy, by linarith⟩
    rw [hf, if_pos (by linarith)]
  · have hy2 : y < (n : α) := lt_of_not_ge hy
    have hf : ⌊y⌋ = n - 1 := by
      rw [Int.floor_eq_iff]
      push_cast
      exact ⟨by linarith, by linarith⟩
    rw [hf]
    push_cast
    rw [if_neg (by linarith), if_pos (by linarith)]
    omega

theorem int_log_two_eq (x : ℝ) (e : Int) (hx : 0 < x) (h1 : (2 : ℝ) ^ e ≤ x)
    (h2 : x < (2 : ℝ) ^ (e + 1)) : Int.log 2 x = e := by
  have a1 : e ≤ Int.log 2 x := by
    apply (Int.zpow_le_iff_le_log (by decide) hx).mp
    simpa using h1
  have a2 : Int.log 2 x < e + 1 := by
    apply (Int.lt_zpow_iff_log_lt (by decide) hx).mp
    simpa using h2
  omega

theorem to_binary_eq (p : Nat) (x u : ℝ) (e n : Int) (hx : 0 < x)
    (h1 : (2 : ℝ) ^ e ≤ x) (h2 : x < (2 : ℝ) ^ (e + 1))
    (hu : u = (2 : ℝ) ^ (e - ((p : Int) - 1)))
    (hn1 : ((n : ℝ) - 1 / 2) * u < x) (hn2 : x < ((n : ℝ) + 1 / 2) * u) :
    to_binary p x = (n : ℝ) * u := by
  have hupos : 0 < u := by
    rw [hu]
    exact zpow_pos (by norm_num) _
  unfold to_binary
  rw [if_neg (ne_of_gt hx)]
  simp only
  rw [abs_of_pos hx, int_log_two_eq x e hx h1 h2, ← hu]
  rw [round_half_even_eq (x / u) n ((lt_div_iff₀ hupos).mpr hn1) ((div_lt_iff₀ hupos).mpr hn2)]

theorem to_float_zero {α : Type} [LinearOrderedField α] [FloorRing α] :
    to_float (0 : α) = 0 := by
  unfold to_float to_binary
  rw [if_pos rfl]

theorem to_double_zero {α : Type} [LinearOrderedField α] [FloorRing α] :
    to_double (0 : α) = 0 := by
  unfold to_double to_binary
  rw [if_pos rfl]

theorem trunc_of_int {α : Type} [LinearOrderedField α] [FloorRing α] (x : α) (z : Int)
    (hz : 0 ≤ z) (h : x = (z : α)) : trunc x = z := by
  unfold trunc
  have h0 : (0 : α) ≤ x := by
    rw [h]
    exact Int.cast_nonneg.mpr hz
  rw [if_pos h0, h]
  exact Int.floor_intCast z

/-! ## Evaluating the distance -/

theorem to_float_one : to_float (1 : ℝ) = 1 := by
  have h := to_binary_eq 24 (1 : ℝ) (1 / 2 ^ 23) 0 8388608 (by norm_num)
    (by norm_num) (by norm_num) (by norm_num) (by norm_num) (by norm_num)
  unfold to_float
  rw [h]
  norm_num

theorem to_double_km_per_degree :
    to_double (110.574 : ℝ) = 7780953518701019 / 2 ^ 46 := by
  have h := to_binary_eq 53 (110.574 : ℝ) (1 / 2 ^ 46) 6 7780953518701019 (by norm_num)
    (by norm_num) (by norm_num) (by norm_num) (by norm_num) (by norm_num)
  unfold to_double
  rw [h]
  norm_num

theorem to_double_of_double :
    to_double (7780953518701019 / 2 ^ 46 : ℝ) = 7780953518701019 / 2 ^ 46 := by
  have h := to_binary_eq 53 (7780953518701019 / 2 ^ 46 : ℝ) (1 / 2 ^ 46) 6 7780953518701019
    (by norm_num) (by norm_num) (by norm_num) (by norm_num) (by norm_num) (by norm_num)
  unfold to_double
  rw [h]
  norm_num

theorem to_float_lat_km :
    to_float (7780953518701019 / 2 ^ 46 : ℝ) = 14493155 / 131072 := by
  have h := to_binary_eq 24 (7780953518701019 / 2 ^ 46 : ℝ) (1 / 2 ^ 17) 6 14493155
    (by norm_num) (by norm_num) (by norm_num) (by norm_num) (by norm_num) (by norm_num)
  unfold to_float
  rw [h]
  norm_num

theorem to_float_lat_km_sq :
    to_float ((14493155 / 131072 : ℝ) * (14493155 / 131072)) = 782503 / 64 := by
  have h := to_binary_eq 24 ((14493155 / 131072 : ℝ) * (14493155 / 131072)) (1 / 2 ^ 10)
    13 12520048
    (by norm_num) (by norm_num) (by norm_num) (by norm_num) (by norm_num) (by norm_num)
  unfold to_float
  rw [h]
  norm_num

theorem to_float_sum : to_float (782503 / 64 : ℝ) = 782503 / 64 := by
  have h := to_binary_eq 24 (782503 / 64 : ℝ) (1 / 2 ^ 10) 13 12520048
    (by norm_num) (by norm_num) (by norm_num) (by norm_num) (by norm_num) (by norm_num)
  unfold to_float
  rw [h]
  norm_num

theorem to_double_sqrt_sum :
    to_double (Real.sqrt (782503 / 64)) = 7780953486563070 / 2 ^ 46 := by
  have hlo : ((7780953486563070 : ℝ) - 1 / 2) * (1 / 2 ^ 46) < Real.sqrt (782503 / 64) := by
    rw [Real.lt_sqrt (by norm_num)]
    norm_num
  have hhi : Real.sqrt (782503 / 64) < ((7780953486563070 : ℝ) + 1 / 2) * (1 / 2 ^ 46) := by
    rw [Real.sqrt_lt' (by norm_num)]
    norm_num
  have h := to_binary_eq 53 (Real.sqrt (782503 / 64)) (1 / 2 ^ 46) 6 7780953486563070
    (by linarith [show (0 : ℝ) < (7780953486563070 - 1 / 2) * (1 / 2 ^ 46) by norm_num])
    (by
      have h64 : (2 : ℝ) ^ (6 : ℤ) < (7780953486563070 - 1 / 2) * (1 / 2 ^ 46) := by norm_num
      linarith)
    (by
      have h128 : ((7780953486563070 : ℝ) + 1 / 2) * (1 / 2 ^ 46) < (2 : ℝ) ^ ((6 : ℤ) + 1) := by
        norm_num
      linarith)
    (by norm_num)
    (by exact_mod_cast hlo) (by exact_mod_cast hhi)
  unfold to_double
  rw [h]
  norm_num

theorem to_double_metres :
    to_double ((7780953486563070 / 2 ^ 46 : ℝ) * 1000) = 7598587389221748 / 2 ^ 36 := by
  have h := to_binary_eq 53 ((7780953486563070 / 2 ^ 46 : ℝ) * 1000) (1 / 2 ^ 36)
    16 7598587389221748
    (by norm_num) (by norm_num) (by norm_num) (by norm_num) (by norm_num) (by norm_num)
  unfold to_double
  rw [h]
  norm_num

theorem trunc_metres : trunc (7598587389221748 / 2 ^ 36 : ℝ) = 110573 := by
  unfold trunc
  rw [if_pos (by norm_num), Int.floor_eq_iff]
  constructor <;> norm_num

theorem calculate_distance_north (n : Nat) (dd : display_data_t) :
    (calculate_distance
      (⟨Real.sin, Real.cos, Real.sqrt, fun y x => Complex.arg ⟨x, y⟩, Real.pi⟩ : libm ℝ)
      (cd_north ℝ n) dd).1 = 45037 := by
  simp only [calculate_distance, cd_north, sub_zero, sub_self, one_mul, zero_mul, mul_zero,
    add_zero, to_float_zero, to_double_zero, to_float_one, to_double_km_per_degree,
    to_double_of_double, to_float_lat_km, to_float_lat_km_sq, to_float_sum,
    to_double_sqrt_sum, to_double_metres, trunc_metres]
  rfl

theorem calculate_distance_arrived (n : Nat) (dd : display_data_t) :
    (calculate_distance
      (⟨Real.sin, Real.cos, Real.sqrt, fun y x => Complex.arg ⟨x, y⟩, Real.pi⟩ : libm ℝ)
      (cd_arrived ℝ n) dd).1 = 0 := by
  have ht : trunc ((0 : ℝ)) = 0 :=
    trunc_of_int _ 0 (by decide) (by norm_num)
  simp only [calculate_distance, cd_arrived, sub_zero, sub_self, zero_mul, mul_zero, add_zero,
    to_float_zero, to_double_zero, Real.sqrt_zero, ht]
  rfl

theorem logic_task_iteration_distance {α : Type} [LinearOrderedField α] [FloorRing α]
    (m : libm α) (cd : compass_data_t α) (dd : display_data_t) :
    (logic_task_iteration m true true cd dd).1.distance =
      (calculate_distance m cd { dd with angle := (calculate_angle m cd dd).1 }).1 := by
  simp [logic_task_iteration, logic_task_update]

theorem logic_task_iteration_finished {α : Type} [LinearOrderedField α] [FloorRing α]
    (m : libm α) (take1 take2 : Bool) (cd : compass_data_t α) (dd : display_data_t) :
    (logic_task_iteration m take1 take2 cd dd).1.finished = dd.finished := by
  cases take1 <;> cases take2 <;> simp [logic_task_iteration, logic_task_update]

/-! ## The empty route -/

theorem logic_task_iteration_checked_in_route {α : Type} [LinearOrderedField α]
    [FloorRing α] (m : libm α) (take1 take2 : Bool) (cd : compass_data_t α)
    (dd : display_data_t) (h : dd.next_wp < cd.path.length) :
    logic_task_iteration_checked m take1 take2 cd dd
      = some (logic_task_iteration m take1 take2 cd dd) := by
  have hn : ¬ cd.path.length ≤ dd.next_wp := by omega
  cases take1 <;> cases take2 <;>
    simp [logic_task_iteration_checked, logic_task_iteration, logic_task_update,
      calculate_angle, calculate_distance, outside_route, hn]

/-- C3, the code at the failing input. With an empty route (`path.length = 0`),
whatever the position, the storage and the value of `display_data`, a pass of
`logic_task` in which both takes succeed evaluates `path.nodes[next_wp]` five
times, each time outside the route, and writes `angle` and `distance`; with
the reads checked against the length the pass has no defined result. The same
at the start value of `display_data` with the position at latitude 0,
longitude 0. -/
theorem empty_route_read_outside :
    (∀ (m : libm ℝ) (cd : compass_data_t ℝ) (dd : display_data_t),
      (logic_task_iteration m true true
          { cd with path := { cd.path with length := 0 } } dd).2.filter (outside_route 0)
        = [event.read_node dd.next_wp, event.read_node dd.next_wp,
           event.read_node dd.next_wp, event.read_node dd.next_wp,
           event.read_node dd.next_wp] ∧
      event.write_display display_field.angle ∈
        (logic_task_iteration m true true
          { cd with path := { cd.path with length := 0 } } dd).2 ∧
      event.write_display display_field.distance ∈
        (logic_task_iteration m true true
          { cd with path := { cd.path with length := 0 } } dd).2 ∧
      logic_task_iteration_checked m true true
          { cd with path := { cd.path with length := 0 } } dd = none) ∧
    (cd_arrived ℝ 0).path.length = 0 ∧
    event.read_node 0 ∈
      (logic_task_iteration
        (⟨Real.sin, Real.cos, Real.sqrt, fun y x => Complex.arg ⟨x, y⟩, Real.pi⟩ : libm ℝ)
        true true (cd_arrived ℝ 0) dd_start).2 ∧
    logic_task_iteration_checked
        (⟨Real.sin, Real.cos, Real.sqrt, fun y x => Complex.arg ⟨x, y⟩, Real.pi⟩ : libm ℝ)
        true true (cd_arrived ℝ 0) dd_start = none := by
  refine ⟨?_, rfl, ?_, ?_⟩
  · intro m cd dd
    rw [logic_task_iteration_checked, logic_task_iteration_events]
    simp [outside_route]
  · rw [logic_task_iteration_events]
    simp [dd_start]
  · rw [logic_task_iteration_checked, logic_task_iteration_events]
    simp [outside_route, cd_arrived]

/-! ## The stored distance -/

/-- C5, the code at the failing input. With the position at latitude 0,
longitude 0 and the target one degree of latitude to the north,
`calculate_distance` returns 45037 (110573 reduced modulo 65536), and that is
what a pass of `logic_task` stores, while the equirectangular distance of the
specification is 110574 whole metres; whatever the inputs, `calculate_distance`
returns a value below 65536. -/
theorem calculate_distance_wraps :
    (calculate_distance
      (⟨Real.sin, Real.cos, Real.sqrt, fun y x => Complex.arg ⟨x, y⟩, Real.pi⟩ : libm ℝ)
      (cd_north ℝ 1) dd_start).1 = 45037 ∧
    (logic_task_iteration
      (⟨Real.sin, Real.cos, Real.sqrt, fun y x => Complex.arg ⟨x, y⟩, Real.pi⟩ : libm ℝ)
      true true (cd_north ℝ 1) dd_start).1.distance = 45037 ∧
    spec_distance_m
      (⟨Real.sin, Real.cos, Real.sqrt, fun y x => Complex.arg ⟨x, y⟩, Real.pi⟩ : libm ℝ)
      (cd_north ℝ 1).position ((cd_north ℝ 1).path.nodes dd_start.next_wp) = 110574 ∧
    (∀ (m : libm ℝ) (cd : compass_data_t ℝ) (dd : display_data_t),
      (calculate_distance m cd dd).1 < 65536) := by
  refine ⟨calculate_distance_north 1 dd_start, ?_, ?_, ?_⟩
  · rw [logic_task_iteration_distance]
    exact calculate_distance_north 1 _
  · have hs : Real.sqrt ((110.574 : ℝ) ^ 2) = 110.574 := Real.sqrt_sq (by norm_num)
    simp only [spec_distance_m, cd_north, sub_zero, one_mul, zero_mul, add_zero, ne_eq,
      OfNat.ofNat_ne_zero, not_false_eq_true, zero_pow, hs]
    rw [Int.floor_eq_iff]
    constructor <;> norm_num
  · intro m cd dd
    unfold calculate_distance
    simp only
    exact to_uint16_lt _

/-! ## The flag `finished` -/

/-- C6, the code at the failing input. No pass of `logic_task` changes
`finished`; with a route of one waypoint, the position on that waypoint and
`finished` false, the pass computes the distance 0, leaves `next_wp` at 0, the
last index, and `finished` is still false after it. -/
theorem finished_never_written :
    (∀ (m : libm ℝ) (take1 take2 : Bool) (cd : compass_data_t ℝ) (dd : display_data_t),
      (logic_task_iteration m take1 take2 cd dd).1.finished = dd.finished) ∧
    (cd_arrived ℝ 1).path.length - 1 = dd_start.next_wp ∧
    (logic_task_iteration
      (⟨Real.sin, Real.cos, Real.sqrt, fun y x => Complex.arg ⟨x, y⟩, Real.pi⟩ : libm ℝ)
      true true (cd_arrived ℝ 1) dd_start).1.distance = 0 ∧
    (logic_task_iteration
      (⟨Real.sin, Real.cos, Real.sqrt, fun y x => Complex.arg ⟨x, y⟩, Real.pi⟩ : libm ℝ)
      true true (cd_arrived ℝ 1) dd_start).1.next_wp = 0 ∧
    (logic_task_iteration
      (⟨Real.sin, Real.cos, Real.sqrt, fun y x => Complex.arg ⟨x, y⟩, Real.pi⟩ : libm ℝ)
      true true (cd_arrived ℝ 1) dd_start).1.finished = false := by
  refine ⟨fun m take1 take2 cd dd => logic_task_iteration_finished m take1 take2 cd dd,
    rfl, ?_, ?_, ?_⟩
  · rw [logic_task_iteration_distance]
    exact calculate_distance_arrived 1 _
  · have h := logic_task_iteration_step
      (⟨Real.sin, Real.cos, Real.sqrt, fun y x => Complex.arg ⟨x, y⟩, Real.pi⟩ : libm ℝ)
      true true (cd_arrived ℝ 1) dd_start (by decide) (by decide)
    have hlen : (cd_arrived ℝ 1).path.length = 1 := rfl
    rw [hlen] at h
    omega
  · rw [logic_task_iteration_finished]
    rfl

/-! ## The azimuth of the target -/

theorem sqrt_two_half_sq : (√2 / 2 : ℝ) * (√2 / 2) = 1 / 2 := by
  have h : (√2 : ℝ) * √2 = 2 := Real.mul_self_sqrt (by norm_num)
  nlinarith

theorem bearing_x_azimuth :
    bearing_x
      (⟨Real.sin, Real.cos, Real.sqrt, fun y x => Complex.arg ⟨x, y⟩, Real.pi⟩ : libm ℝ)
      (cd_azimuth ℝ) dd_start = 1 / 2 := by
  have e1 : (45 : ℝ) * Real.pi / 180 = Real.pi / 4 := by ring
  have e2 : (90 : ℝ) * Real.pi / 180 = Real.pi / 2 := by ring
  simp only [bearing_x, cd_azimuth, dd_start, e1, e2, zero_mul, zero_div, sub_zero,
    Real.sin_zero, Real.cos_pi_div_four, Real.sin_pi_div_four, Real.cos_pi_div_two, mul_zero]
  exact sqrt_two_half_sq

theorem bearing_y_azimuth :
    bearing_y
      (⟨Real.sin, Real.cos, Real.sqrt, fun y x => Complex.arg ⟨x, y⟩, Real.pi⟩ : libm ℝ)
      (cd_azimuth ℝ) dd_start = √2 / 2 := by
  have e1 : (45 : ℝ) * Real.pi / 180 = Real.pi / 4 := by ring
  have e2 : (90 : ℝ) * Real.pi / 180 = Real.pi / 2 := by ring
  simp only [bearing_y, cd_azimuth, dd_start, e1, e2, zero_mul, zero_div, sub_zero,
    Real.cos_pi_div_four, Real.sin_pi_div_two, one_mul]

theorem spec_forward_azimuth_example :
    spec_forward_azimuth
      (⟨Real.sin, Real.cos, Real.sqrt, fun y x => Complex.arg ⟨x, y⟩, Real.pi⟩ : libm ℝ)
      (0 * Real.pi / 180) (0 * Real.pi / 180) (45 * Real.pi / 180) (90 * Real.pi / 180)
      = Complex.arg ⟨√2 / 2, √2 / 2⟩ := by
  have e1 : (45 : ℝ) * Real.pi / 180 = Real.pi / 4 := by ring
  have e2 : (90 : ℝ) * Real.pi / 180 = Real.pi / 2 := by ring
  simp only [spec_forward_azimuth, e1, e2, zero_mul, zero_div, sub_zero, Real.sin_zero,
    Real.cos_zero, Real.cos_pi_div_four, Real.sin_pi_div_four, Real.sin_pi_div_two, one_mul]

theorem arg_diagonal : Complex.arg ⟨√2 / 2, √2 / 2⟩ = Real.pi / 4 := by
  have hz : (⟨√2 / 2, √2 / 2⟩ : ℂ)
      = Complex.cos ((Real.pi / 4 : ℝ) : ℂ)
        + Complex.sin ((Real.pi / 4 : ℝ) : ℂ) * Complex.I := by
    apply Complex.ext
    · simp [← Complex.ofReal_cos, ← Complex.ofReal_sin, Real.cos_pi_div_four,
        -Complex.ofReal_div]
    · simp [← Complex.ofReal_cos, ← Complex.ofReal_sin, Real.sin_pi_div_four,
        -Complex.ofReal_div]
  rw [hz]
  apply Complex.arg_cos_add_sin_mul_I
  have hpos := Real.pi_pos
  constructor <;> linarith

theorem arg_half_ne : Complex.arg ⟨1 / 2, √2 / 2⟩ ≠ Real.pi / 4 := by
  intro h
  have ht := Complex.tan_arg ⟨1 / 2, √2 / 2⟩
  rw [h, Real.tan_pi_div_four] at ht
  simp only at ht
  have h2 : (√2 : ℝ) = 1 := by
    field_simp at ht
    linarith
  have h3 : (√2 : ℝ) * √2 = 2 := Real.mul_self_sqrt (by norm_num)
  rw [h2] at h3
  norm_num at h3

/-- C9, the code at the failing input. From latitude 0, longitude 0 to the
target at latitude 45, longitude 90 (degrees), with the exact functions of real
analysis: the `x` of `calculate_angle` is `1 / 2` (the product
`cos lat2 · sin lat2`) and its `y` is `√2 / 2`; the standard forward azimuth of
the specification is `π / 4` (45 degrees); the azimuth `calculate_angle`
computes before the heading correction is not `π / 4`. -/
theorem bearing_x_target_latitude_twice :
    bearing_x
      (⟨Real.sin, Real.cos, Real.sqrt, fun y x => Complex.arg ⟨x, y⟩, Real.pi⟩ : libm ℝ)
      (cd_azimuth ℝ) dd_start = 1 / 2 ∧
    bearing_y
      (⟨Real.sin, Real.cos, Real.sqrt, fun y x => Complex.arg ⟨x, y⟩, Real.pi⟩ : libm ℝ)
      (cd_azimuth ℝ) dd_start = √2 / 2 ∧
    spec_forward_azimuth
      (⟨Real.sin, Real.cos, Real.sqrt, fun y x => Complex.arg ⟨x, y⟩, Real.pi⟩ : libm ℝ)
      (0 * Real.pi / 180) (0 * Real.pi / 180) (45 * Real.pi / 180) (90 * Real.pi / 180)
      = Real.pi / 4 ∧
    target_bearing
      (⟨Real.sin, Real.cos, Real.sqrt, fun y x => Complex.arg ⟨x, y⟩, Real.pi⟩ : libm ℝ)
      (cd_azimuth ℝ) dd_start ≠ Real.pi / 4 := by
  refine ⟨bearing_x_azimuth, bearing_y_azimuth, ?_, ?_⟩
  · rw [spec_forward_azimuth_example]
    exact arg_diagonal
  · unfold target_bearing
    rw [bearing_x_azimuth, bearing_y_azimuth]
    exact arg_half_ne

end SmartCompass
